import Mathlib

/-!
Verification of the core of `filmdetect` (package `pkg/filmdetect`,
file `filmdetect.go`): a tool that detects which Fujifilm film recipe
was used to produce a photograph.

The development shallowly embeds the Go source:

* the `Recipe` struct and its reflection-driven field-by-field
  comparison (`Difference.GetLines`, `Difference.Score`, `FullScore`);
* the tag-normalisation branches of `GetRecipeFromFile` (the loop over
  exiftool fields), including the Go `regexp` matching they perform;
* the maker-note phase of `GetRecipeFromFile` together with the
  registered parser `fuji.Parse`;
* the ranking loop of `DetectFromRecipes`.

Machine integers are modelled as `Int`; `strconv.Atoi` is modelled with
the 64-bit clamp Go applies on overflow (the repository targets 64-bit
platforms).  Go errors are modelled with `Except`; a Go runtime crash
(index out of range on a `nil` regexp match) is modelled by the
distinguished error value `GoErr.indexOutOfRange`.  Go's map iteration
order is arbitrary; the extractor is modelled over an explicit list of
(tag, value) pairs, and nothing proved here depends on that order.
-/

/-- Character is an ASCII decimal digit, the Go regexp class `[0-9]`. -/
def isDigitChar (c : Char) : Bool :=
  c.isDigit

/-- Numeric value of a list of ASCII digits, most significant first. -/
def digitsVal (cs : List Char) : Nat :=
  cs.foldl (fun acc c => acc * 10 + (c.toNat - '0'.toNat)) 0

/-- Models Go `strconv.Atoi` on the strings produced by the regexp
matches below (an optional sign followed by one or more ASCII digits).
On overflow Go returns the nearest representable 64-bit value together
with a range error that the source discards, so the clamped value is
kept. -/
def goAtoi (cs : List Char) : Int :=
  match cs with
  | '-' :: rest => - (min (digitsVal rest : Int) (2 ^ 63))
  | '+' :: rest => min (digitsVal rest : Int) (2 ^ 63 - 1)
  | _ => min (digitsVal cs : Int) (2 ^ 63 - 1)

/-- Head of the list is an ASCII digit. -/
def headIsDigit : List Char → Bool
  | c :: _ => isDigitChar c
  | [] => false

/-- Leftmost match of the Go regexp `([\-+]?[0-9]+)` used by the
`HighlightTone`, `ShadowTone`, `Saturation` and `NoiseReduction`
branches of `GetRecipeFromFile`: at the first position where an
optional sign is followed by a maximal nonempty digit run, return that
substring; `none` when the string contains no digit. -/
def findIntSub : List Char → Option (List Char)
  | [] => none
  | c :: rest =>
    if isDigitChar c then
      some (c :: rest.takeWhile isDigitChar)
    else if (c == '-' || c == '+') && headIsDigit rest then
      some (c :: rest.takeWhile isDigitChar)
    else
      findIntSub rest

/-- Strip the literal `pat` from the front of `cs` (Go regexp literal
characters), returning the remainder on success. -/
def dropLit : List Char → List Char → Option (List Char)
  | [], cs => some cs
  | _ :: _, [] => none
  | p :: ps, c :: cs => if c == p then dropLit ps cs else none

/-- Match `[\-+][0-9]+` at the head of the list: a mandatory sign
followed by a maximal nonempty digit run.  Returns the matched
substring and the remainder. -/
def readSigned : List Char → Option (List Char × List Char)
  | [] => none
  | c :: rest =>
    if (c == '-' || c == '+') && headIsDigit rest then
      some (c :: rest.takeWhile isDigitChar, rest.dropWhile isDigitChar)
    else
      none

/-- Attempt the Go regexp `Red ([\-+][0-9]+), Blue ([\-+][0-9]+)` at
the head of the list, returning the two captured groups.  The two
literal runs of the pattern are spelled as character lists: `Red `
(with trailing space) and `, Blue ` (comma, space, `Blue`, space). -/
def tryWBAt (cs : List Char) : Option (List Char × List Char) :=
  match dropLit ['R', 'e', 'd', ' '] cs with
  | none => none
  | some r1 =>
    match readSigned r1 with
    | none => none
    | some (redS, r2) =>
      match dropLit [',', ' ', 'B', 'l', 'u', 'e', ' '] r2 with
      | none => none
      | some r3 =>
        match readSigned r3 with
        | none => none
        | some (blueS, _) => some (redS, blueS)

/-- Leftmost match of `Red ([\-+][0-9]+), Blue ([\-+][0-9]+)` anywhere
in the string (Go `FindStringSubmatch`): the two captured groups, or
`none` when the pattern does not occur. -/
def matchWB : List Char → Option (List Char × List Char)
  | [] => none
  | c :: rest =>
    match tryWBAt (c :: rest) with
    | some m => some m
    | none => matchWB rest

/-- Does `big` contain `small` as a contiguous substring (character
list form)?  Models Go `strings.Contains`. -/
def containsSubAux (small : List Char) : List Char → Bool
  | [] => small.isEmpty
  | c :: rest => small.isPrefixOf (c :: rest) || containsSubAux small rest

/-- Go `strings.Contains big small`. -/
def containsSub (big small : String) : Bool :=
  containsSubAux small.data big.data

/-- The canonical record of `filmdetect.go` (struct `Recipe`): three
identity fields followed by the fifteen scored parameters. -/
structure Recipe where
  Name : String
  Author : String
  Url : String
  FilmSimulation : String
  GrainEffectSize : String
  GrainEffectRoughness : String
  ColorChromeEffect : String
  ColorChromeFXBlue : String
  WhiteBalanceMode : String
  WhiteBalanceRed : Int
  WhiteBalanceBlue : Int
  DynamicRange : String
  Highlights : Int
  Shadows : Int
  Color : Int
  Sharpness : Int
  NoiseReduction : Int
  Clarity : Int
deriving DecidableEq, Repr

/-- A field value observed through Go reflection: either a string
field or an int field. -/
inductive FieldVal where
  | s (v : String)
  | i (v : Int)
deriving DecidableEq, Repr

/-- Go `fmt.Sprintf "%v"` on a reflected field value. -/
def fmtV : FieldVal → String
  | .s v => v
  | .i v => toString v

/-- The fields of `Recipe` in struct declaration order, as the
reflection loop of `Difference.GetLines` enumerates them. -/
def recipeFields : List (String × (Recipe → FieldVal)) :=
  [("Name", fun r => .s r.Name),
   ("Author", fun r => .s r.Author),
   ("Url", fun r => .s r.Url),
   ("FilmSimulation", fun r => .s r.FilmSimulation),
   ("GrainEffectSize", fun r => .s r.GrainEffectSize),
   ("GrainEffectRoughness", fun r => .s r.GrainEffectRoughness),
   ("ColorChromeEffect", fun r => .s r.ColorChromeEffect),
   ("ColorChromeFXBlue", fun r => .s r.ColorChromeFXBlue),
   ("WhiteBalanceMode", fun r => .s r.WhiteBalanceMode),
   ("WhiteBalanceRed", fun r => .i r.WhiteBalanceRed),
   ("WhiteBalanceBlue", fun r => .i r.WhiteBalanceBlue),
   ("DynamicRange", fun r => .s r.DynamicRange),
   ("Highlights", fun r => .i r.Highlights),
   ("Shadows", fun r => .i r.Shadows),
   ("Color", fun r => .i r.Color),
   ("Sharpness", fun r => .i r.Sharpness),
   ("NoiseReduction", fun r => .i r.NoiseReduction),
   ("Clarity", fun r => .i r.Clarity)]

/-- One iteration of the reflection loop in `Difference.GetLines`:
skip the field when its name is a substring of `"Name Author Url"`
(Go `strings.Contains("Name Author Url", fieldName)`), otherwise
append a mismatch row when the two values differ. -/
def lineStep (inp cand : Recipe) (result : List (List String))
    (fld : String × (Recipe → FieldVal)) : List (List String) :=
  if containsSub "Name Author Url" fld.1 then result
  else if fld.2 inp ≠ fld.2 cand then
    result ++ [[fld.1, fmtV (fld.2 inp), fmtV (fld.2 cand)]]
  else result

/-- Embeds `Difference.GetLines`: the list of mismatch rows, in struct
declaration order, one per scored field on which the two records
differ. -/
def GetLines (inp cand : Recipe) : List (List String) :=
  recipeFields.foldl (lineStep inp cand) []

/-- Embeds the constant `FullScore` of `filmdetect.go` (the
authoritative source file declares `FullScore int = 15`). -/
def FullScore : Int := 15

/-- Embeds struct `Difference`. -/
structure Difference where
  Input : Recipe
  Candidate : Recipe
  Lines : List (List String)
deriving DecidableEq, Repr

/-- Embeds `DifferenceFromRecipes`. -/
def DifferenceFromRecipes (input candidate : Recipe) : Difference :=
  { Input := input, Candidate := candidate, Lines := GetLines input candidate }

/-- Embeds `Difference.IsFullScore`. -/
def Difference.IsFullScore (d : Difference) : Bool :=
  d.Lines.length == 0

/-- Embeds `Difference.Score`. -/
def Difference.Score (d : Difference) : Int :=
  FullScore - d.Lines.length

/-- Errors raised by the embedded code.  Each constructor corresponds
to one `errors.New` site of the Go source, except `indexOutOfRange`,
which models the runtime crash the `WhiteBalanceFineTune` branch hits
when it indexes into a `nil` regexp match (`matches[1]` with
`matches == nil`), and `notIntConvertible`, which models a failing
`tiff.Tag.Int` conversion in the external goexif library. -/
inductive GoErr where
  | fieldValueNotStringOrFloat
  | unexpectedHighlight
  | unexpectedShadow
  | unexpectedSaturation
  | unexpectedNoise
  | indexOutOfRange
  | notFujifilm
  | decodeDirFailed
  | tagAbsent (id : Nat)
  | notIntConvertible
deriving DecidableEq, Repr

/-- A raw exiftool field value.  Go receives `interface\x7b\x7d`; the
source accepts `string` and `float64` and rejects everything else.
The only use the embedded branches make of a float is
`strconv.FormatFloat(v, 'f', 0, 64)` in the `DevelopmentDynamicRange`
branch, so a float is abstracted by that rendering. -/
inductive TagValue where
  | str (s : String)
  | num (fmtF0 : String)
  | other
deriving DecidableEq, Repr

/-- Boolean success test for an embedded Go call. -/
def isOkB {ε α : Type} : Except ε α → Bool
  | .ok _ => true
  | .error _ => false

/-- Embeds one iteration of the field loop of `GetRecipeFromFile`: the
dispatch on the exiftool tag name `k` with raw value `v`, updating the
recipe under construction.  The Go branches are a sequence of
independent `if k == ...` tests on distinct keys, so they are rendered
as a cascade.  A `Subject` tag is skipped before the type switch; a
value that is neither string nor float aborts extraction. -/
def processField (r : Recipe) (k : String) (v : TagValue) : Except GoErr Recipe :=
  if k == "Subject" then .ok r else
  match v with
  | .other => .error .fieldValueNotStringOrFloat
  | _ =>
    let stringValue : String := match v with | .str s => s | _ => ""
    let floatF0 : String := match v with | .num f => f | _ => "0"
    if k == "FilmMode" then .ok { r with FilmSimulation := stringValue }
    else if k == "GrainEffect" then .ok { r with GrainEffectRoughness := stringValue }
    else if k == "ColorChromeEffect" then .ok { r with ColorChromeEffect := stringValue }
    else if k == "ColorChromeFXBlue" then .ok { r with ColorChromeFXBlue := stringValue }
    else if k == "WhiteBalance" then .ok { r with WhiteBalanceMode := stringValue }
    else if k == "WhiteBalanceFineTune" then
      match matchWB stringValue.data with
      | none => .error .indexOutOfRange
      | some (redS, blueS) =>
        .ok { r with WhiteBalanceRed := Int.tdiv (goAtoi redS) 20,
                     WhiteBalanceBlue := Int.tdiv (goAtoi blueS) 20 }
    else if k == "DevelopmentDynamicRange" then .ok { r with DynamicRange := floatF0 }
    else if k == "HighlightTone" then
      match findIntSub stringValue.data with
      | none => .error .unexpectedHighlight
      | some m => .ok { r with Highlights := goAtoi m }
    else if k == "ShadowTone" then
      match findIntSub stringValue.data with
      | none => .error .unexpectedShadow
      | some m => .ok { r with Shadows := goAtoi m }
    else if k == "Saturation" then
      match findIntSub stringValue.data with
      | none => .error .unexpectedSaturation
      | some m => .ok { r with Color := goAtoi m }
    else if k == "Sharpness" then
      .ok { r with Sharpness :=
        if stringValue == "Softest" then -4
        else if stringValue == "Very Soft" then -3
        else if stringValue == "Soft" then -2
        else if stringValue == "Medium Soft" then -1
        else if stringValue == "Normal" then 0
        else if stringValue == "Medium Hard" then 1
        else if stringValue == "Hard" then 2
        else if stringValue == "Very Hard" then 3
        else if stringValue == "Hardest" then 4
        else r.Sharpness }
    else if k == "NoiseReduction" then
      match findIntSub stringValue.data with
      | none => .error .unexpectedNoise
      | some m => .ok { r with NoiseReduction := goAtoi m }
    else .ok r

/-- The zero value of the Go struct `Recipe`. -/
def zeroRecipe : Recipe :=
  { Name := "", Author := "", Url := "", FilmSimulation := "",
    GrainEffectSize := "", GrainEffectRoughness := "",
    ColorChromeEffect := "", ColorChromeFXBlue := "",
    WhiteBalanceMode := "", WhiteBalanceRed := 0, WhiteBalanceBlue := 0,
    DynamicRange := "", Highlights := 0, Shadows := 0, Color := 0,
    Sharpness := 0, NoiseReduction := 0, Clarity := 0 }

/-- Embeds the primary phase of `GetRecipeFromFile`: start from
`Recipe\x7bDynamicRange: "Auto"\x7d` and fold the field dispatch over
the exiftool tags, failing fast on the first error. -/
def runFields (fields : List (String × TagValue)) : Except GoErr Recipe :=
  fields.foldlM (fun r kv => processField r kv.1 kv.2)
    { zeroRecipe with DynamicRange := "Auto" }

/-- A value stored in a maker-note TIFF tag, abstracted by what
`tiff.Tag.Int 0` does with it: produce an integer or fail. -/
inductive ExifVal where
  | intVal (n : Int)
  | nonInt
deriving DecidableEq, Repr

/-- Abstraction of the goexif view of the photograph used by
`fuji.Parse` and the maker-note phase of `GetRecipeFromFile`:
whether `x.Get(MakerNote)` succeeds, the outcome of `x.Get(Make)`
(`none`: tag absent; `some none`: present but `StringVal` fails;
`some (some s)`: string value `s`), and the decoded maker-note
directory (`none`: `tiff.DecodeDir` fails). -/
structure ExifData where
  hasMakerNote : Bool
  makeVal : Option (Option String)
  makerDir : Option (List (Nat × ExifVal))
deriving DecidableEq, Repr

/-- First maker-note directory entry with the given tag id, as
`tiff.DecodeDir` + `LoadTags` expose it. -/
def lookupTag (dir : List (Nat × ExifVal)) (id : Nat) : Option ExifVal :=
  (dir.find? (fun p => p.1 == id)).map (fun p => p.2)

/-- Tag id of `Exif.Fujifilm.Clarity` in `makerNoteFujiFields`. -/
def clarityTagId : Nat := 0x100f

/-- Tag id of `Exif.Fujifilm.GrainEffectSize` in `makerNoteFujiFields`. -/
def grainTagId : Nat := 0x104c

/-- Embeds `fuji.Parse`: with no maker note or no `Make` tag it loads
nothing and reports success; with a `Make` whose string value is
missing or differs from `"FUJIFILM"` it fails; otherwise it decodes
the maker-note directory (failure possible) and exposes the two
Fujifilm private tags.  The result is the pair of loaded values for
`Clarity` and `GrainEffectSize`. -/
def fujiParse (x : ExifData) : Except GoErr (Option ExifVal × Option ExifVal) :=
  if !x.hasMakerNote then .ok (none, none)
  else match x.makeVal with
  | none => .ok (none, none)
  | some sv =>
    match sv with
    | none => .error .notFujifilm
    | some s =>
      if s ≠ "FUJIFILM" then .error .notFujifilm
      else match x.makerDir with
      | none => .error .decodeDirFailed
      | some dir => .ok (lookupTag dir clarityTagId, lookupTag dir grainTagId)

/-- Go `tiff.Tag.Int 0` as used on the grain-effect-size tag. -/
def tagInt (v : ExifVal) : Except GoErr Int :=
  match v with
  | .intVal n => .ok n
  | .nonInt => .error .notIntConvertible

/-- Go `recipe.Clarity, _ = clarityField.Int(0)`: the conversion error
is discarded and the zero result kept. -/
def tagIntOrZero (v : ExifVal) : Int :=
  match v with
  | .intVal n => n
  | .nonInt => 0

/-- Embeds the maker-note phase of `GetRecipeFromFile` (after the
exiftool loop): decode the file with the registered `fuji` parser
(`exif.Decode` propagates the parser's failure), fetch the two private
tags (each `Get` fails when the tag was not loaded), map the grain
code 0/16/32 to Off/Small/Large leaving other codes untouched, and
divide a nonzero clarity by 1000 (Go `int` division truncates toward
zero).  On error Go returns `Recipe\x7b\x7d` together with the error
and no caller uses the record, which `Except.error` captures. -/
def exifPhase (r : Recipe) (x : ExifData) : Except GoErr Recipe :=
  match fujiParse x with
  | .error e => .error e
  | .ok (clarityVal, grainVal) =>
    match clarityVal with
    | none => .error (.tagAbsent clarityTagId)
    | some cv =>
      match grainVal with
      | none => .error (.tagAbsent grainTagId)
      | some gv =>
        match tagInt gv with
        | .error e => .error e
        | .ok g =>
          let r1 := if g == 0 then { r with GrainEffectSize := "Off" } else r
          let r2 := if g == 16 then { r1 with GrainEffectSize := "Small" } else r1
          let r3 := if g == 32 then { r2 with GrainEffectSize := "Large" } else r2
          let r4 := { r3 with Clarity := tagIntOrZero cv }
          let r5 := if r4.Clarity ≠ 0 then { r4 with Clarity := Int.tdiv r4.Clarity 1000 } else r4
          .ok r5

/-- Embeds `GetRecipeFromFile` on already-materialised inputs: the
exiftool field list (primary phase) followed by the maker-note phase
over the goexif view of the same file. -/
def GetRecipeFromFile (fields : List (String × TagValue)) (x : ExifData) :
    Except GoErr Recipe :=
  match runFields fields with
  | .error e => .error e
  | .ok r => exifPhase r x

/-- Embeds the ranking loop of `DetectFromRecipes`, operating on the
already-sorted list of differences.  `topScore` starts at the sentinel
0 and `acc` at the empty result list; a full-score difference returns
immediately with the perfect-match flag; otherwise the loop
accumulates until the score drops below the first score recorded. -/
def detectLoop : List Difference → Int → List Difference → List Difference × Bool
  | [], _, acc => (acc, false)
  | d :: rest, topScore, acc =>
    if d.IsFullScore then ([d], true)
    else if topScore ≠ 0 then
      if topScore > d.Score then (acc, false)
      else detectLoop rest topScore (acc ++ [d])
    else detectLoop rest d.Score (acc ++ [d])

/-- The differences `DetectFromRecipes` computes before sorting, in
candidate order. -/
def computeDifferences (input : Recipe) (candidates : List Recipe) : List Difference :=
  candidates.map (DifferenceFromRecipes input)

/-- Sorted by score, descending: the postcondition of the
`sort.Slice` call in `DetectFromRecipes` (the library sort promises
orderedness but not stability, so the ranking theorems quantify over
every ordered permutation). -/
def SortedByScoreDesc (ds : List Difference) : Prop :=
  List.Pairwise (fun a b => b.Score ≤ a.Score) ds

/-- Highest score present in a difference list (0 when empty; every
score of an actual difference list is nonnegative, see
`score_nonneg`). -/
def maxScore (ds : List Difference) : Int :=
  ds.foldr (fun d m => max d.Score m) 0

/-- Written from the specification's words, independently of the
scanner above: the string contains, anywhere, a substring of the
shape `Red <signed-int>, Blue <signed-int>` (sign mandatory, digits
nonempty).  Compared against the embedded matcher in the
white-balance theorems. -/
def wbShape (cs : List Char) : Prop :=
  ∃ pre s1 d1 s2 d2 suf,
    (s1 = '-' ∨ s1 = '+') ∧ (s2 = '-' ∨ s2 = '+') ∧
    d1 ≠ [] ∧ d2 ≠ [] ∧ d1.all isDigitChar = true ∧ d2.all isDigitChar = true ∧
    cs = pre ++ (['R', 'e', 'd', ' '] ++ (s1 :: (d1
           ++ ([',', ' ', 'B', 'l', 'u', 'e', ' '] ++ (s2 :: (d2 ++ suf))))))

/-- A concrete recipe used by the witnesses and counterexamples. -/
def sampleRecipe : Recipe :=
  { Name := "Kodachrome 64", Author := "example",
    Url := "https://example.org/k64",
    FilmSimulation := "Classic Chrome", GrainEffectSize := "Small",
    GrainEffectRoughness := "Weak", ColorChromeEffect := "Strong",
    ColorChromeFXBlue := "Off", WhiteBalanceMode := "Auto",
    WhiteBalanceRed := 1, WhiteBalanceBlue := -1, DynamicRange := "200",
    Highlights := 0, Shadows := 1, Color := 2, Sharpness := -2,
    NoiseReduction := -4, Clarity := 0 }

/-- Candidate library for the ranking witnesses: two candidates one
field away from `sampleRecipe` (score 14) and one candidate two
fields away (score 13); none is a perfect match. -/
def sampleCands : List Recipe :=
  [{ sampleRecipe with Shadows := 2 },
   { sampleRecipe with Color := 0 },
   { sampleRecipe with Sharpness := 0, NoiseReduction := 0 }]

/-- Candidate library for the perfect-match witness: one imperfect
candidate followed by a field-identical copy of `sampleRecipe` that
differs only in its identity fields. -/
def sampleCandsPerfect : List Recipe :=
  [{ sampleRecipe with Shadows := 2 },
   { sampleRecipe with Name := "Copy", Author := "other", Url := "" }]

/-- `sampleCandsPerfect`'s differences re-sorted by descending score,
as `sort.Slice` would order them. -/
def sampleSortedPerfect : List Difference :=
  [DifferenceFromRecipes sampleRecipe
     { sampleRecipe with Name := "Copy", Author := "other", Url := "" },
   DifferenceFromRecipes sampleRecipe { sampleRecipe with Shadows := 2 }]


/-- A field whose name is a substring of `"Name Author Url"` is
skipped by the comparison loop. -/
theorem lineStep_skip (inp cand : Recipe) (acc : List (List String))
    (f : String × (Recipe → FieldVal))
    (h : containsSub "Name Author Url" f.1 = true) :
    lineStep inp cand acc f = acc := by
  simp [lineStep, h]

/-- Each comparison step appends at most one mismatch row. -/
theorem lineStep_length_le (inp cand : Recipe) (acc : List (List String))
    (f : String × (Recipe → FieldVal)) :
    (lineStep inp cand acc f).length ≤ acc.length + 1 := by
  unfold lineStep
  split
  · omega
  · split <;> simp

/-- The mismatch list grows by at most one row per non-identity
field. -/
theorem foldl_lineStep_length (inp cand : Recipe) :
    ∀ (fields : List (String × (Recipe → FieldVal))) (acc : List (List String)),
    (List.foldl (lineStep inp cand) acc fields).length ≤
      acc.length + fields.countP (fun f => !(containsSub "Name Author Url" f.1)) := by
  intro fields
  induction fields with
  | nil => intro acc; simp
  | cons f fs ih =>
    intro acc
    rw [List.foldl_cons]
    refine le_trans (ih (lineStep inp cand acc f)) ?_
    by_cases h : containsSub "Name Author Url" f.1 = true
    · rw [lineStep_skip inp cand acc f h]
      simp [List.countP_cons, h]
    · have h2 := lineStep_length_le inp cand acc f
      simp only [List.countP_cons]
      simp only [Bool.not_eq_true] at h
      simp [h]
      omega

/-- Exactly fifteen of the record's eighteen fields survive the
identity filter: they are the scored attributes. -/
theorem countP_recipeFields :
    recipeFields.countP (fun f => !(containsSub "Name Author Url" f.1)) = 15 := by
  decide

/-- A comparison produces at most fifteen mismatch rows. -/
theorem getLines_length_le (inp cand : Recipe) : (GetLines inp cand).length ≤ 15 := by
  have := foldl_lineStep_length inp cand recipeFields []
  rw [countP_recipeFields] at this
  simpa [GetLines] using this

/-- Scores of actual differences are nonnegative. -/
theorem score_nonneg (inp cand : Recipe) :
    0 ≤ (DifferenceFromRecipes inp cand).Score := by
  have h := getLines_length_le inp cand
  simp only [DifferenceFromRecipes, Difference.Score, FullScore]
  omega

/-- No difference scores above the full score. -/
theorem score_le_fifteen (d : Difference) : d.Score ≤ 15 := by
  simp only [Difference.Score, FullScore]
  omega

/-- Full score is equivalent to score 15. -/
theorem isFullScore_iff_score (d : Difference) : d.IsFullScore = true ↔ d.Score = 15 := by
  simp only [Difference.IsFullScore, Difference.Score, FullScore, beq_iff_eq]
  omega

/-- Comparing a record with itself yields no mismatch rows. -/
theorem getLines_self (A : Recipe) : GetLines A A = [] := by
  simp +decide [GetLines, recipeFields, lineStep]

/-- While the sentinel `topScore` is still 0 and every difference
scores 0, the loop accumulates everything. -/
theorem detectLoop_all_zero :
    ∀ (ds : List Difference) (acc : List Difference),
    (∀ d ∈ ds, d.Score = 0 ∧ d.IsFullScore = false) →
    detectLoop ds 0 acc = (acc ++ ds, false) := by
  intro ds
  induction ds with
  | nil => intro acc _; simp [detectLoop]
  | cons d rest ih =>
    intro acc h
    have hd := h d (by simp)
    rw [detectLoop, hd.1]
    simp only [hd.2, Bool.false_eq_true, if_false, ne_eq, not_true_eq_false, if_false,
      ite_self]
    rw [ih (acc ++ [d]) (fun e he => h e (by simp [he]))]
    simp

/-- Once `topScore` holds a nonzero value bounding every remaining
score, the loop accumulates exactly the leading run of differences
with that score. -/
theorem detectLoop_pos :
    ∀ (ds : List Difference) (t : Int) (acc : List Difference),
    t ≠ 0 →
    (∀ d ∈ ds, d.Score ≤ t ∧ d.IsFullScore = false) →
    detectLoop ds t acc = (acc ++ ds.takeWhile (fun d => d.Score == t), false) := by
  intro ds
  induction ds with
  | nil => intro t acc _ _; simp [detectLoop]
  | cons d rest ih =>
    intro t acc ht h
    have hd := h d (by simp)
    rw [detectLoop]
    simp only [hd.2, Bool.false_eq_true, if_false, ht, ne_eq, not_false_eq_true, if_true]
    by_cases hgt : t > d.Score
    · have : (d.Score == t) = false := by
        simp only [beq_eq_false_iff_ne, ne_eq]
        omega
      simp [hgt, List.takeWhile_cons, this]
    · have heq : d.Score = t := le_antisymm hd.1 (by omega)
      have : (d.Score == t) = true := by simpa using heq
      simp only [hgt, if_false]
      rw [ih t (acc ++ [d]) ht (fun e he => h e (by simp [he]))]
      simp [List.takeWhile_cons, this]

/-- Unfolding lemma for `maxScore`. -/
theorem maxScore_cons (d : Difference) (rest : List Difference) :
    maxScore (d :: rest) = max d.Score (maxScore rest) := rfl

/-- Every member's score is bounded by `maxScore`. -/
theorem le_maxScore (ds : List Difference) (d : Difference) (h : d ∈ ds) :
    d.Score ≤ maxScore ds := by
  induction ds with
  | nil => simp at h
  | cons e rest ih =>
    rw [maxScore_cons]
    rcases List.mem_cons.mp h with h1 | h1
    · subst h1; exact le_max_left _ _
    · exact le_trans (ih h1) (le_max_right _ _)

/-- `maxScore` is below any nonnegative upper bound of the scores. -/
theorem maxScore_le (ds : List Difference) (t : Int) (ht : 0 ≤ t)
    (h : ∀ d ∈ ds, d.Score ≤ t) : maxScore ds ≤ t := by
  induction ds with
  | nil => simpa [maxScore]
  | cons e rest ih =>
    rw [maxScore_cons]
    exact max_le (h e (by simp)) (ih (fun d hd => h d (by simp [hd])))

/-- In a score-sorted list bounded by `t`, filtering for score `t`
and taking the leading run of score `t` agree. -/
theorem filter_eq_takeWhile (t : Int) :
    ∀ (ds : List Difference), SortedByScoreDesc ds → (∀ d ∈ ds, d.Score ≤ t) →
    ds.filter (fun d => d.Score == t) = ds.takeWhile (fun d => d.Score == t) := by
  intro ds
  induction ds with
  | nil => intro _ _; rfl
  | cons e rest ih =>
    intro hsort hle
    have hrest := (List.pairwise_cons.mp hsort).2
    have hhead := (List.pairwise_cons.mp hsort).1
    by_cases he : e.Score = t
    · have hb : (e.Score == t) = true := by simpa using he
      rw [List.filter_cons, List.takeWhile_cons, hb]
      simp only [if_true]
      rw [ih hrest (fun d hd => le_trans (hhead d hd) (he ▸ le_refl _))]
    · have hb : (e.Score == t) = false := by simpa using he
      rw [List.filter_cons, List.takeWhile_cons, hb]
      simp only [Bool.false_eq_true, if_false]
      have hlt : e.Score < t := lt_of_le_of_ne (hle e (by simp)) he
      have : rest.filter (fun d => d.Score == t) = [] := by
        rw [List.filter_eq_nil_iff]
        intro d hd
        have : d.Score < t := lt_of_le_of_lt (hhead d hd) hlt
        simp only [beq_iff_eq]
        omega
      simp [this]

/-- Every element of a permutation of an actual difference list has a
nonnegative score. -/
theorem mem_perm_score_nonneg (input : Recipe) (candidates : List Recipe)
    (ds : List Difference)
    (hperm : (computeDifferences input candidates).Perm ds) :
    ∀ d ∈ ds, 0 ≤ d.Score := by
  intro d hd
  have hmem : d ∈ computeDifferences input candidates := hperm.mem_iff.mpr hd
  rcases List.mem_map.mp hmem with ⟨c, _, rfl⟩
  exact score_nonneg input c

/-- When the loop reports a perfect match, the result is a single
full-score difference drawn from the list. -/
theorem detectLoop_result_true :
    ∀ (ds : List Difference) (t : Int) (acc res : List Difference),
    detectLoop ds t acc = (res, true) →
    ∃ d, d ∈ ds ∧ d.IsFullScore = true ∧ res = [d] := by
  intro ds
  induction ds with
  | nil => intro t acc res h; simp [detectLoop] at h
  | cons d rest ih =>
    intro t acc res h
    rw [detectLoop] at h
    by_cases hp : d.IsFullScore = true
    · refine ⟨d, by simp, hp, ?_⟩
      rw [if_pos hp] at h
      injection h with h1 _
      exact h1.symm
    · rw [if_neg hp] at h
      by_cases ht : t ≠ 0
      · rw [if_pos ht] at h
        by_cases hgt : t > d.Score
        · rw [if_pos hgt] at h
          simp at h
        · rw [if_neg hgt] at h
          rcases ih t (acc ++ [d]) res h with ⟨e, he, hfull, hres⟩
          exact ⟨e, by simp [he], hfull, hres⟩
      · rw [if_neg ht] at h
        rcases ih d.Score (acc ++ [d]) res h with ⟨e, he, hfull, hres⟩
        exact ⟨e, by simp [he], hfull, hres⟩

/-- A full-score difference at the head of the list makes the loop
return it alone, immediately. -/
theorem detectLoop_perfect_head (d : Difference) (rest acc : List Difference)
    (t : Int) (h : d.IsFullScore = true) :
    detectLoop (d :: rest) t acc = ([d], true) := by
  rw [detectLoop, if_pos h]

/-- Claim C1, counterexample: comparing the concrete record
`sampleRecipe` with itself yields zero mismatches, yet its score is
15, not the 16 the claim states. -/
theorem score_self_not_sixteen :
    GetLines sampleRecipe sampleRecipe = []
    ∧ (DifferenceFromRecipes sampleRecipe sampleRecipe).Score ≠ 16 := by
  decide

/-- Claim C1, amended: the full-score constant equals the number of
scored attributes, which is 15: of the record's eighteen fields
exactly fifteen survive the identity filter, every comparison
produces at most fifteen mismatch rows, and comparing any record with
itself yields zero mismatches and score exactly 15 (so
`score = 15 − |mismatch list|` with a self-comparison attaining the
maximum). -/
theorem fullscore_equals_scored_attribute_count :
    FullScore = 15
    ∧ recipeFields.countP (fun f => !(containsSub "Name Author Url" f.1)) = 15
    ∧ (∀ inp cand : Recipe, (GetLines inp cand).length ≤ 15)
    ∧ (∀ A : Recipe, GetLines A A = []
        ∧ (DifferenceFromRecipes A A).Score = 15) := by
  refine ⟨rfl, countP_recipeFields, getLines_length_le, ?_⟩
  intro A
  have h := getLines_self A
  refine ⟨h, ?_⟩
  simp [DifferenceFromRecipes, Difference.Score, FullScore, h]

/-- Claim C9, confirmed: the comparison never inspects the identity
fields `Name`, `Author`, `Url`.  Any two records that agree on the
fifteen scored attributes compare as a perfect match, whatever their
identity fields hold. -/
theorem compare_ignores_identity (inp cand : Recipe)
    (h1 : inp.FilmSimulation = cand.FilmSimulation)
    (h2 : inp.GrainEffectSize = cand.GrainEffectSize)
    (h3 : inp.GrainEffectRoughness = cand.GrainEffectRoughness)
    (h4 : inp.ColorChromeEffect = cand.ColorChromeEffect)
    (h5 : inp.ColorChromeFXBlue = cand.ColorChromeFXBlue)
    (h6 : inp.WhiteBalanceMode = cand.WhiteBalanceMode)
    (h7 : inp.WhiteBalanceRed = cand.WhiteBalanceRed)
    (h8 : inp.WhiteBalanceBlue = cand.WhiteBalanceBlue)
    (h9 : inp.DynamicRange = cand.DynamicRange)
    (h10 : inp.Highlights = cand.Highlights)
    (h11 : inp.Shadows = cand.Shadows)
    (h12 : inp.Color = cand.Color)
    (h13 : inp.Sharpness = cand.Sharpness)
    (h14 : inp.NoiseReduction = cand.NoiseReduction)
    (h15 : inp.Clarity = cand.Clarity) :
    GetLines inp cand = []
    ∧ (DifferenceFromRecipes inp cand).IsFullScore = true := by
  have hl : GetLines inp cand = [] := by
    simp +decide [GetLines, recipeFields, lineStep, h1, h2, h3, h4, h5, h6, h7, h8,
      h9, h10, h11, h12, h13, h14, h15]
  exact ⟨hl, by simp [DifferenceFromRecipes, Difference.IsFullScore, hl]⟩

/-- Witness for C9: a copy of `sampleRecipe` that changes only
`Name`, `Author` and `Url` still compares as a perfect match. -/
theorem compare_ignores_identity_witness :
    GetLines sampleRecipe
      { sampleRecipe with Name := "Copy", Author := "other", Url := "" } = []
    ∧ (DifferenceFromRecipes sampleRecipe
        { sampleRecipe with Name := "Copy", Author := "other", Url := "" }).IsFullScore
        = true :=
  compare_ignores_identity _ _ rfl rfl rfl rfl rfl rfl rfl rfl rfl rfl rfl rfl rfl
    rfl rfl

/-- Claim C3, confirmed: when no candidate is a perfect match, the
ranking loop returns exactly the group of differences whose score
equals the highest score present (every difference of that score and
none of lower score), with the perfect-match flag false; in
particular an empty candidate list gives an empty result, flag false,
and no error (the loop has no failure mode).  The list `ds` ranges
over every permutation of the computed differences sorted by
descending score, since Go's `sort.Slice` promises only
orderedness. -/
theorem rank_top_group (input : Recipe) (candidates : List Recipe)
    (ds : List Difference)
    (hperm : (computeDifferences input candidates).Perm ds)
    (hsort : SortedByScoreDesc ds)
    (hnoperf : ∀ d ∈ ds, d.IsFullScore = false) :
    detectLoop ds 0 [] = (ds.filter (fun d => d.Score == maxScore ds), false) := by
  have hnn := mem_perm_score_nonneg input candidates ds hperm
  cases ds with
  | nil => rfl
  | cons d0 rest =>
    have hhead : ∀ e ∈ rest, e.Score ≤ d0.Score := (List.pairwise_cons.mp hsort).1
    have hmax : maxScore (d0 :: rest) = d0.Score := by
      rw [maxScore_cons]
      exact max_eq_left (maxScore_le rest d0.Score (hnn d0 (by simp)) hhead)
    by_cases h0 : d0.Score = 0
    · have hall : ∀ d ∈ (d0 :: rest), d.Score = 0 ∧ d.IsFullScore = false := by
        intro d hd
        refine ⟨le_antisymm ?_ (hnn d hd), hnoperf d hd⟩
        rcases List.mem_cons.mp hd with h1 | h1
        · subst h1; exact le_of_eq h0
        · exact h0 ▸ hhead d h1
      rw [detectLoop_all_zero _ [] hall]
      have hfil : (d0 :: rest).filter (fun d => d.Score == maxScore (d0 :: rest))
          = d0 :: rest := by
        rw [List.filter_eq_self]
        intro a ha
        rw [hmax, h0]
        simp [(hall a ha).1]
      rw [hfil]
      simp
    · have h1 : detectLoop (d0 :: rest) 0 [] = detectLoop rest d0.Score [d0] := by
        rw [detectLoop]
        simp [hnoperf d0 (by simp)]
      have hle : ∀ d ∈ (d0 :: rest), d.Score ≤ d0.Score := by
        intro d hd
        rcases List.mem_cons.mp hd with h2 | h2
        · subst h2; exact le_refl _
        · exact hhead d h2
      rw [h1, detectLoop_pos rest d0.Score [d0] h0
            (fun e he => ⟨hhead e he, hnoperf e (by simp [he])⟩),
          hmax, filter_eq_takeWhile d0.Score (d0 :: rest) hsort hle,
          List.takeWhile_cons]
      simp

/-- Witness for C3: over `sampleCands` (scores 14, 14, 13, no perfect
match) the loop returns exactly the two score-14 differences. -/
theorem rank_top_group_witness :
    (computeDifferences sampleRecipe sampleCands).Perm
        (computeDifferences sampleRecipe sampleCands)
    ∧ SortedByScoreDesc (computeDifferences sampleRecipe sampleCands)
    ∧ (∀ d ∈ computeDifferences sampleRecipe sampleCands, d.IsFullScore = false)
    ∧ detectLoop (computeDifferences sampleRecipe sampleCands) 0 []
        = ((computeDifferences sampleRecipe sampleCands).filter
            (fun d => d.Score == maxScore (computeDifferences sampleRecipe sampleCands)),
           false) :=
  ⟨List.Perm.refl _, by unfold SortedByScoreDesc; decide, by decide,
   rank_top_group sampleRecipe sampleCands _ (List.Perm.refl _)
     (by unfold SortedByScoreDesc; decide) (by decide)⟩

/-- Claim C7, confirmed: the ranking loop reports a perfect match if
and only if some candidate has zero mismatching scored fields with
the input, and whenever it does, the result list is a single
full-score difference.  As in `rank_top_group`, `ds` ranges over
every score-sorted permutation of the computed differences. -/
theorem rank_perfect_match_iff (input : Recipe) (candidates : List Recipe)
    (ds : List Difference)
    (hperm : (computeDifferences input candidates).Perm ds)
    (hsort : SortedByScoreDesc ds) :
    ((detectLoop ds 0 []).2 = true ↔
      ∃ c ∈ candidates, (DifferenceFromRecipes input c).IsFullScore = true)
    ∧ (∀ res, detectLoop ds 0 [] = (res, true) →
        ∃ d, res = [d] ∧ d.IsFullScore = true) := by
  have hforward : ∀ res, detectLoop ds 0 [] = (res, true) →
      ∃ d, res = [d] ∧ d.IsFullScore = true := by
    intro res h
    rcases detectLoop_result_true ds 0 [] res h with ⟨d, _, hfull, hres⟩
    exact ⟨d, hres, hfull⟩
  refine ⟨⟨?_, ?_⟩, hforward⟩
  · intro hflag
    have h : detectLoop ds 0 [] = ((detectLoop ds 0 []).1, true) := by
      rw [← hflag]
    rcases detectLoop_result_true ds 0 [] _ h with ⟨d, hd, hfull, _⟩
    have hmem : d ∈ computeDifferences input candidates := hperm.mem_iff.mpr hd
    rcases List.mem_map.mp hmem with ⟨c, hc, rfl⟩
    exact ⟨c, hc, hfull⟩
  · rintro ⟨c, hc, hfull⟩
    have hmem : DifferenceFromRecipes input c ∈ ds :=
      hperm.mem_iff.mp (List.mem_map.mpr ⟨c, hc, rfl⟩)
    cases ds with
    | nil => simp at hmem
    | cons d0 rest =>
      have hscore : (DifferenceFromRecipes input c).Score = 15 :=
        (isFullScore_iff_score _).mp hfull
      have hd0 : d0.Score = 15 := by
        rcases List.mem_cons.mp hmem with h1 | h1
        · rw [← h1]; exact hscore
        · have hle := (List.pairwise_cons.mp hsort).1 _ h1
          have h15 := score_le_fifteen d0
          rw [hscore] at hle
          omega
      have hperf : d0.IsFullScore = true := (isFullScore_iff_score d0).mpr hd0
      rw [detectLoop_perfect_head d0 rest [] 0 hperf]

/-- Witness for C7: with a field-identical candidate present, the
loop reports a perfect match and a singleton result. -/
theorem rank_perfect_match_iff_witness :
    (computeDifferences sampleRecipe sampleCandsPerfect).Perm sampleSortedPerfect
    ∧ SortedByScoreDesc sampleSortedPerfect
    ∧ (((detectLoop sampleSortedPerfect 0 []).2 = true ↔
        ∃ c ∈ sampleCandsPerfect,
          (DifferenceFromRecipes sampleRecipe c).IsFullScore = true)
      ∧ (∀ res, detectLoop sampleSortedPerfect 0 [] = (res, true) →
          ∃ d, res = [d] ∧ d.IsFullScore = true)) :=
  ⟨by decide, by unfold SortedByScoreDesc; decide,
   rank_perfect_match_iff sampleRecipe sampleCandsPerfect sampleSortedPerfect
     (by decide) (by unfold SortedByScoreDesc; decide)⟩

/-- A list whose head is a digit contains a digit. -/
theorem headIsDigit_any (rest : List Char) (h : headIsDigit rest = true) :
    rest.any isDigitChar = true := by
  cases rest with
  | nil => simp [headIsDigit] at h
  | cons d ds =>
    simp only [headIsDigit] at h
    simp [List.any_cons, h]

/-- The integer-substring scanner succeeds exactly on strings that
contain a decimal digit (the regexp `([\-+]?[0-9]+)` matches iff a
digit occurs). -/
theorem findIntSub_isSome (cs : List Char) :
    (findIntSub cs).isSome = cs.any isDigitChar := by
  induction cs with
  | nil => rfl
  | cons c rest ih =>
    rw [findIntSub, List.any_cons]
    by_cases h : isDigitChar c = true
    · simp [h]
    · simp only [Bool.not_eq_true] at h
      by_cases h2 : ((c == '-' || c == '+') && headIsDigit rest) = true
      · have := headIsDigit_any rest (Bool.and_elim_right h2)
        simp [h, h2, this]
      · simp only [Bool.not_eq_true] at h2
        simp [h, h2, ih]

/-- Unfolding of the `HighlightTone` branch of the extractor. -/
theorem processField_highlight (r : Recipe) (s : String) :
    processField r "HighlightTone" (.str s) =
      match findIntSub s.data with
      | none => .error .unexpectedHighlight
      | some m => .ok { r with Highlights := goAtoi m } := rfl

/-- Unfolding of the `ShadowTone` branch of the extractor. -/
theorem processField_shadow (r : Recipe) (s : String) :
    processField r "ShadowTone" (.str s) =
      match findIntSub s.data with
      | none => .error .unexpectedShadow
      | some m => .ok { r with Shadows := goAtoi m } := rfl

/-- Unfolding of the `NoiseReduction` branch of the extractor. -/
theorem processField_noise (r : Recipe) (s : String) :
    processField r "NoiseReduction" (.str s) =
      match findIntSub s.data with
      | none => .error .unexpectedNoise
      | some m => .ok { r with NoiseReduction := goAtoi m } := rfl

/-- Unfolding of the `Saturation` branch of the extractor. -/
theorem processField_saturation (r : Recipe) (s : String) :
    processField r "Saturation" (.str s) =
      match findIntSub s.data with
      | none => .error .unexpectedSaturation
      | some m => .ok { r with Color := goAtoi m } := rfl

/-- Unfolding of the `WhiteBalanceFineTune` branch of the extractor. -/
theorem processField_wb (r : Recipe) (s : String) :
    processField r "WhiteBalanceFineTune" (.str s) =
      match matchWB s.data with
      | none => .error .indexOutOfRange
      | some (redS, blueS) =>
        .ok { r with WhiteBalanceRed := Int.tdiv (goAtoi redS) 20,
                     WhiteBalanceBlue := Int.tdiv (goAtoi blueS) 20 } := rfl

/-- Everything `takeWhile` keeps satisfies the predicate. -/
theorem takeWhile_all_self (p : Char → Bool) :
    ∀ (l : List Char), ((l.takeWhile p).all p) = true := by
  intro l
  induction l with
  | nil => rfl
  | cons c rest ih =>
    rw [List.takeWhile_cons]
    by_cases h : p c = true
    · simp [h, ih]
    · simp only [Bool.not_eq_true] at h
      simp [h]

/-- `takeWhile` passes over a prefix that satisfies the predicate. -/
theorem takeWhile_append_all (p : Char → Bool) (d rest : List Char)
    (h : d.all p = true) :
    (d ++ rest).takeWhile p = d ++ rest.takeWhile p := by
  induction d with
  | nil => simp
  | cons c cs ih =>
    simp only [List.all_cons, Bool.and_eq_true] at h
    simp [List.takeWhile_cons, h.1, ih h.2]

/-- `dropWhile` drops a prefix that satisfies the predicate. -/
theorem dropWhile_append_all (p : Char → Bool) (d rest : List Char)
    (h : d.all p = true) :
    (d ++ rest).dropWhile p = rest.dropWhile p := by
  induction d with
  | nil => simp
  | cons c cs ih =>
    simp only [List.all_cons, Bool.and_eq_true] at h
    simp [List.dropWhile_cons, h.1, ih h.2]

/-- `dropWhile` stops at a head that fails the predicate. -/
theorem dropWhile_cons_false (p : Char → Bool) (c : Char) (l : List Char)
    (h : p c = false) : (c :: l).dropWhile p = c :: l := by
  simp [List.dropWhile, h]

/-- A successful literal strip decomposes its input. -/
theorem dropLit_some : ∀ (pat cs rest : List Char),
    dropLit pat cs = some rest → cs = pat ++ rest := by
  intro pat
  induction pat with
  | nil =>
    intro cs rest h
    rw [dropLit] at h
    injection h
  | cons p ps ih =>
    intro cs rest h
    cases cs with
    | nil => simp [dropLit] at h
    | cons c cs' =>
      rw [dropLit] at h
      by_cases hc : (c == p) = true
      · rw [if_pos hc] at h
        have := ih cs' rest h
        simp only [beq_iff_eq] at hc
        simp [hc, this]
      · rw [if_neg hc] at h
        simp at h

/-- Stripping a literal off itself succeeds. -/
theorem dropLit_append (pat rest : List Char) :
    dropLit pat (pat ++ rest) = some rest := by
  induction pat with
  | nil => rfl
  | cons p ps ih => simp [dropLit, ih]

/-- A successful signed-integer read decomposes its input into a
sign, a nonempty digit run, and the remainder. -/
theorem readSigned_some (cs sInt rest : List Char)
    (h : readSigned cs = some (sInt, rest)) :
    ∃ s d, (s = '-' ∨ s = '+') ∧ d ≠ [] ∧ d.all isDigitChar = true ∧
      sInt = s :: d ∧ cs = s :: (d ++ rest) := by
  cases cs with
  | nil => simp [readSigned] at h
  | cons c r =>
    rw [readSigned] at h
    by_cases hg : ((c == '-' || c == '+') && headIsDigit r) = true
    · rw [if_pos hg] at h
      injection h with h1
      injection h1 with h2 h3
      refine ⟨c, r.takeWhile isDigitChar, ?_, ?_, takeWhile_all_self _ _, h2.symm, ?_⟩
      · rcases Bool.or_eq_true_iff.mp (Bool.and_elim_left hg) with hc | hc
        · exact Or.inl (by simpa using hc)
        · exact Or.inr (by simpa using hc)
      · have hh := Bool.and_elim_right hg
        cases r with
        | nil => simp [headIsDigit] at hh
        | cons d0 ds =>
          simp only [headIsDigit] at hh
          simp [List.takeWhile_cons, hh]
      · rw [← h3, List.takeWhile_append_dropWhile]
    · rw [if_neg hg] at h
      simp at h

/-- The signed-integer reader succeeds on a sign followed by a
digit. -/
theorem readSigned_pos (c : Char) (rest : List Char)
    (hg : (c == '-' || c == '+') = true) (hh : headIsDigit rest = true) :
    readSigned (c :: rest)
      = some (c :: rest.takeWhile isDigitChar, rest.dropWhile isDigitChar) := by
  rw [readSigned]
  simp [hg, hh]

/-- A successful anchored match of the white-balance pattern
decomposes its input into the pattern's pieces. -/
theorem tryWBAt_some (cs r b : List Char) (h : tryWBAt cs = some (r, b)) :
    ∃ s1 d1 s2 d2 suf, (s1 = '-' ∨ s1 = '+') ∧ (s2 = '-' ∨ s2 = '+') ∧
      d1 ≠ [] ∧ d2 ≠ [] ∧ d1.all isDigitChar = true ∧ d2.all isDigitChar = true ∧
      cs = ['R', 'e', 'd', ' '] ++ (s1 :: (d1
             ++ ([',', ' ', 'B', 'l', 'u', 'e', ' '] ++ (s2 :: (d2 ++ suf))))) := by
  rw [tryWBAt] at h
  cases h1 : dropLit ['R', 'e', 'd', ' '] cs with
  | none => simp only [h1] at h; exact Option.noConfusion h
  | some r1 =>
    simp only [h1] at h
    cases h2 : readSigned r1 with
    | none => simp only [h2] at h; exact Option.noConfusion h
    | some p1 =>
      obtain ⟨redS, r2⟩ := p1
      simp only [h2] at h
      cases h3 : dropLit [',', ' ', 'B', 'l', 'u', 'e', ' '] r2 with
      | none => simp only [h3] at h; exact Option.noConfusion h
      | some r3 =>
        simp only [h3] at h
        cases h4 : readSigned r3 with
        | none => simp only [h4] at h; exact Option.noConfusion h
        | some p2 =>
          obtain ⟨blueS, r4⟩ := p2
          simp only [h4] at h
          rcases readSigned_some r1 redS r2 h2 with ⟨s1, d1, hs1, hd1, ha1, _, hr1⟩
          rcases readSigned_some r3 blueS r4 h4 with ⟨s2, d2, hs2, hd2, ha2, _, hr3⟩
          refine ⟨s1, d1, s2, d2, r4, hs1, hs2, hd1, hd2, ha1, ha2, ?_⟩
          have hcs := dropLit_some _ _ _ h1
          have hr2 := dropLit_some _ _ _ h3
          rw [hcs, hr1, hr2, hr3]

/-- The anchored matcher succeeds on any input that starts with the
white-balance pattern. -/
theorem tryWBAt_shape_isSome (s1 : Char) (d1 : List Char) (s2 : Char)
    (d2 suf : List Char)
    (hs1 : s1 = '-' ∨ s1 = '+') (hs2 : s2 = '-' ∨ s2 = '+')
    (hd1 : d1 ≠ []) (hd2 : d2 ≠ [])
    (ha1 : d1.all isDigitChar = true) (ha2 : d2.all isDigitChar = true) :
    (tryWBAt (['R', 'e', 'd', ' '] ++ (s1 :: (d1
        ++ ([',', ' ', 'B', 'l', 'u', 'e', ' '] ++ (s2 :: (d2 ++ suf))))))).isSome
      = true := by
  have hg1 : (s1 == '-' || s1 == '+') = true := by rcases hs1 with h | h <;> simp [h]
  have hg2 : (s2 == '-' || s2 == '+') = true := by rcases hs2 with h | h <;> simp [h]
  have hh1 : headIsDigit
      (d1 ++ ([',', ' ', 'B', 'l', 'u', 'e', ' '] ++ (s2 :: (d2 ++ suf)))) = true := by
    cases d1 with
    | nil => exact absurd rfl hd1
    | cons c cs =>
      simp only [List.all_cons, Bool.and_eq_true] at ha1
      simpa [headIsDigit] using ha1.1
  have hh2 : headIsDigit (d2 ++ suf) = true := by
    cases d2 with
    | nil => exact absurd rfl hd2
    | cons c cs =>
      simp only [List.all_cons, Bool.and_eq_true] at ha2
      simpa [headIsDigit] using ha2.1
  have hdrop : List.dropWhile isDigitChar
        (d1 ++ ([',', ' ', 'B', 'l', 'u', 'e', ' '] ++ (s2 :: (d2 ++ suf))))
      = [',', ' ', 'B', 'l', 'u', 'e', ' '] ++ (s2 :: (d2 ++ suf)) := by
    rw [dropWhile_append_all _ _ _ ha1]
    exact dropWhile_cons_false _ _ _ (by decide)
  rw [tryWBAt]
  simp only [dropLit_append, readSigned_pos s1 _ hg1 hh1, hdrop,
    readSigned_pos s2 _ hg2 hh2, Option.isSome_some]

/-- A successful unanchored match happens at some split of the
input. -/
theorem matchWB_some_decomp :
    ∀ (cs : List Char) (m : List Char × List Char), matchWB cs = some m →
    ∃ pre rest, cs = pre ++ rest ∧ tryWBAt rest = some m := by
  intro cs
  induction cs with
  | nil => intro m h; simp [matchWB] at h
  | cons c cs' ih =>
    intro m h
    rw [matchWB] at h
    cases ht : tryWBAt (c :: cs') with
    | some m' =>
      simp only [ht] at h
      injection h with h1
      exact ⟨[], c :: cs', rfl, h1 ▸ ht⟩
    | none =>
      simp only [ht] at h
      rcases ih m h with ⟨pre, rest, heq, htry⟩
      exact ⟨c :: pre, rest, by simp [heq], htry⟩

/-- An anchored match at any position gives an unanchored match. -/
theorem matchWB_isSome_of_tryWBAt :
    ∀ (pre rest : List Char), (tryWBAt rest).isSome = true →
    (matchWB (pre ++ rest)).isSome = true := by
  intro pre
  induction pre with
  | nil =>
    intro rest h
    cases rest with
    | nil => simp [tryWBAt, dropLit] at h
    | cons c cs =>
      rw [List.nil_append, matchWB]
      cases ht : tryWBAt (c :: cs) with
      | some m => simp only [ht, Option.isSome_some]
      | none => rw [ht] at h; simp at h
  | cons p ps ih =>
    intro rest h
    rw [List.cons_append, matchWB]
    cases ht : tryWBAt (p :: (ps ++ rest)) with
    | some m => simp only [ht, Option.isSome_some]
    | none => simpa only [ht] using ih rest h

/-- Refinement: the embedded Go regexp matcher succeeds exactly on
the strings of the spec-level `wbShape`. -/
theorem matchWB_isSome_iff (cs : List Char) :
    (matchWB cs).isSome = true ↔ wbShape cs := by
  constructor
  · intro h
    cases hm : matchWB cs with
    | none => rw [hm] at h; simp at h
    | some m =>
      rcases matchWB_some_decomp cs m hm with ⟨pre, rest, heq, htry⟩
      obtain ⟨r, b⟩ := m
      rcases tryWBAt_some rest r b htry with
        ⟨s1, d1, s2, d2, suf, hs1, hs2, hd1, hd2, ha1, ha2, hrest⟩
      exact ⟨pre, s1, d1, s2, d2, suf, hs1, hs2, hd1, hd2, ha1, ha2,
        by rw [heq, hrest]⟩
  · rintro ⟨pre, s1, d1, s2, d2, suf, hs1, hs2, hd1, hd2, ha1, ha2, heq⟩
    rw [heq]
    exact matchWB_isSome_of_tryWBAt pre _
      (tryWBAt_shape_isSome s1 d1 s2 d2 suf hs1 hs2 hd1 hd2 ha1 ha2)

/-- Unfolding of the `Sharpness` branch of the extractor. -/
theorem processField_sharpness (r : Recipe) (s : String) :
    processField r "Sharpness" (.str s) =
      .ok { r with Sharpness :=
        if s == "Softest" then -4
        else if s == "Very Soft" then -3
        else if s == "Soft" then -2
        else if s == "Medium Soft" then -1
        else if s == "Normal" then 0
        else if s == "Medium Hard" then 1
        else if s == "Hard" then 2
        else if s == "Very Hard" then 3
        else if s == "Hardest" then 4
        else r.Sharpness } := rfl

/-- Claim C2, amended: the white-balance fine-tune branch succeeds
exactly on strings containing the pattern
`Red <signed-int>, Blue <signed-int>` (with mandatory signs), and then
divides the two integers by 20 truncating toward zero
("Red +40, Blue -20" gives (2, -1)); on every other string -
including the empty string - the code hits an index-out-of-range
runtime crash on the nil regexp match instead of returning (0, 0) or
a MalformedValue error. -/
theorem whiteBalanceFineTune_behavior :
    (∀ (r : Recipe) (s : String),
      isOkB (processField r "WhiteBalanceFineTune" (.str s)) = true ↔ wbShape s.data)
    ∧ (∀ r : Recipe, processField r "WhiteBalanceFineTune" (.str "Red +40, Blue -20")
        = .ok { r with WhiteBalanceRed := 2, WhiteBalanceBlue := -1 })
    ∧ (∀ (r : Recipe) (s : String), matchWB s.data = none →
        processField r "WhiteBalanceFineTune" (.str s) = .error .indexOutOfRange) := by
  refine ⟨?_, ?_, ?_⟩
  · intro r s
    rw [processField_wb, ← matchWB_isSome_iff]
    cases h : matchWB s.data with
    | none => simp [isOkB, h]
    | some m =>
      obtain ⟨a, b⟩ := m
      simp [isOkB, h]
  · intro r
    rfl
  · intro r s h
    rw [processField_wb, h]

/-- Claim C2, counterexample: on the empty string the branch does not
return offsets (0, 0); it crashes (index out of range on the nil
match, modelled as `GoErr.indexOutOfRange`). -/
theorem whiteBalanceFineTune_empty_crashes :
    processField sampleRecipe "WhiteBalanceFineTune" (.str "")
      = .error .indexOutOfRange := rfl

/-- Witness for C2: the crash case instantiated at the empty string. -/
theorem whiteBalanceFineTune_behavior_witness :
    matchWB "".data = none
    ∧ processField zeroRecipe "WhiteBalanceFineTune" (.str "")
        = .error .indexOutOfRange :=
  ⟨rfl, whiteBalanceFineTune_behavior.2.2 zeroRecipe "" rfl⟩

/-- Claim C4, amended: the highlight-tone branch (and the identical
shadow-tone and noise-reduction branches) succeeds exactly on strings
containing a digit, extracting the first signed or unsigned integer
substring ("+2" gives 2); the empty string and the literal "Normal"
contain no digit and therefore fail with a MalformedValue error
("Unexpected highlight value") instead of yielding 0. -/
theorem toneNormalizer_behavior :
    (∀ (r : Recipe) (s : String),
      isOkB (processField r "HighlightTone" (.str s)) = s.data.any isDigitChar)
    ∧ (∀ (r : Recipe) (s : String) (m : List Char), findIntSub s.data = some m →
        processField r "HighlightTone" (.str s) = .ok { r with Highlights := goAtoi m })
    ∧ (∀ r : Recipe, processField r "HighlightTone" (.str "+2")
        = .ok { r with Highlights := 2 })
    ∧ (∀ r : Recipe, processField r "HighlightTone" (.str "Normal")
        = .error .unexpectedHighlight)
    ∧ (∀ r : Recipe, processField r "HighlightTone" (.str "")
        = .error .unexpectedHighlight)
    ∧ (∀ (r : Recipe) (s : String),
      isOkB (processField r "ShadowTone" (.str s)) = s.data.any isDigitChar)
    ∧ (∀ (r : Recipe) (s : String),
      isOkB (processField r "NoiseReduction" (.str s)) = s.data.any isDigitChar) := by
  refine ⟨?_, ?_, fun r => rfl, fun r => rfl, fun r => rfl, ?_, ?_⟩
  · intro r s
    rw [processField_highlight, ← findIntSub_isSome]
    cases h : findIntSub s.data with
    | none => simp [isOkB, h]
    | some m => simp [isOkB, h]
  · intro r s m h
    rw [processField_highlight, h]
  · intro r s
    rw [processField_shadow, ← findIntSub_isSome]
    cases h : findIntSub s.data with
    | none => simp [isOkB, h]
    | some m => simp [isOkB, h]
  · intro r s
    rw [processField_noise, ← findIntSub_isSome]
    cases h : findIntSub s.data with
    | none => simp [isOkB, h]
    | some m => simp [isOkB, h]

/-- Claim C4, counterexample: the inputs "Normal" and "" do not yield
0; they make extraction fail. -/
theorem highlightTone_normal_errors :
    processField sampleRecipe "HighlightTone" (.str "Normal")
      = .error .unexpectedHighlight
    ∧ processField sampleRecipe "HighlightTone" (.str "")
      = .error .unexpectedHighlight := ⟨rfl, rfl⟩

/-- Witness for C4: first-integer extraction instantiated on
"a-12b". -/
theorem toneNormalizer_behavior_witness :
    findIntSub "a-12b".data = some ['-', '1', '2']
    ∧ processField zeroRecipe "HighlightTone" (.str "a-12b")
        = .ok { zeroRecipe with Highlights := -12 } := by
  refine ⟨rfl, ?_⟩
  have h := toneNormalizer_behavior.2.1 zeroRecipe "a-12b" ['-', '1', '2'] rfl
  rw [h]
  rfl

/-- Claim C5, amended: the sharpness switch maps the nine recognized
labels Softest..Hardest to -4..4 in unit steps with "Normal" to 0,
and on every other input it leaves the sharpness field unchanged and
reports no error (the Go switch has no default case), rather than
failing with an UnrecognizedEnum error. -/
theorem sharpness_switch_behavior :
    (∀ r : Recipe,
      processField r "Sharpness" (.str "Softest") = .ok { r with Sharpness := -4 }
      ∧ processField r "Sharpness" (.str "Very Soft") = .ok { r with Sharpness := -3 }
      ∧ processField r "Sharpness" (.str "Soft") = .ok { r with Sharpness := -2 }
      ∧ processField r "Sharpness" (.str "Medium Soft") = .ok { r with Sharpness := -1 }
      ∧ processField r "Sharpness" (.str "Normal") = .ok { r with Sharpness := 0 }
      ∧ processField r "Sharpness" (.str "Medium Hard") = .ok { r with Sharpness := 1 }
      ∧ processField r "Sharpness" (.str "Hard") = .ok { r with Sharpness := 2 }
      ∧ processField r "Sharpness" (.str "Very Hard") = .ok { r with Sharpness := 3 }
      ∧ processField r "Sharpness" (.str "Hardest") = .ok { r with Sharpness := 4 })
    ∧ (∀ (r : Recipe) (s : String),
        s ∉ (["Softest", "Very Soft", "Soft", "Medium Soft", "Normal",
              "Medium Hard", "Hard", "Very Hard", "Hardest"] : List String) →
        processField r "Sharpness" (.str s) = .ok r) := by
  constructor
  · intro r
    exact ⟨rfl, rfl, rfl, rfl, rfl, rfl, rfl, rfl, rfl⟩
  · intro r s h
    simp only [List.mem_cons, List.not_mem_nil, or_false, not_or] at h
    obtain ⟨n1, n2, n3, n4, n5, n6, n7, n8, n9⟩ := h
    rw [processField_sharpness]
    simp only [beq_iff_eq, n1, n2, n3, n4, n5, n6, n7, n8, n9, if_false]

/-- Claim C5, counterexample: the unrecognized label "Hardest!" does
not produce an UnrecognizedEnum error; the record passes through
unchanged. -/
theorem sharpness_unrecognized_no_error :
    processField sampleRecipe "Sharpness" (.str "Hardest!") = .ok sampleRecipe := rfl

/-- Witness for C5: the no-error case instantiated at "Hardest!". -/
theorem sharpness_switch_behavior_witness :
    ("Hardest!" ∉ (["Softest", "Very Soft", "Soft", "Medium Soft", "Normal",
        "Medium Hard", "Hard", "Very Hard", "Hardest"] : List String))
    ∧ processField zeroRecipe "Sharpness" (.str "Hardest!") = .ok zeroRecipe :=
  ⟨by decide, sharpness_switch_behavior.2 zeroRecipe "Hardest!" (by decide)⟩

/-- Claim C6, amended: the saturation branch has no Acros special
case: it succeeds exactly on strings containing a digit, changes only
the Color field (never the film-simulation field), and on a string
containing "Acros" but no digit - such as "Acros" itself - it fails
with a MalformedValue error ("Unexpected saturation value") instead
of forcing color 0 and writing the film-simulation field. -/
theorem saturation_no_acros_case :
    (∀ (r : Recipe) (s : String),
      isOkB (processField r "Saturation" (.str s)) = s.data.any isDigitChar)
    ∧ (∀ (r r' : Recipe) (s : String), processField r "Saturation" (.str s) = .ok r' →
        r'.FilmSimulation = r.FilmSimulation ∧ r' = { r with Color := r'.Color })
    ∧ (∀ r : Recipe, processField r "Saturation" (.str "Acros")
        = .error .unexpectedSaturation) := by
  refine ⟨?_, ?_, fun r => rfl⟩
  · intro r s
    rw [processField_saturation, ← findIntSub_isSome]
    cases h : findIntSub s.data with
    | none => simp [isOkB, h]
    | some m => simp [isOkB, h]
  · intro r r' s h
    rw [processField_saturation] at h
    cases hm : findIntSub s.data with
    | none => rw [hm] at h; exact Except.noConfusion h
    | some m =>
      rw [hm] at h
      injection h with h1
      subst h1
      exact ⟨rfl, rfl⟩

/-- Claim C6, counterexample: the saturation value "Acros" makes
extraction fail; color is not set to 0 and the film-simulation field
is not written. -/
theorem saturation_acros_errors :
    processField sampleRecipe "Saturation" (.str "Acros")
      = .error .unexpectedSaturation := rfl

/-- Witness for C6: a successful saturation parse ("+3") leaves the
film-simulation field untouched and changes only Color. -/
theorem saturation_no_acros_case_witness :
    processField zeroRecipe "Saturation" (.str "+3")
        = .ok { zeroRecipe with Color := 3 }
    ∧ ({ zeroRecipe with Color := 3 } : Recipe).FilmSimulation
        = zeroRecipe.FilmSimulation
    ∧ ({ zeroRecipe with Color := 3 } : Recipe)
        = { zeroRecipe with Color := ({ zeroRecipe with Color := 3 } : Recipe).Color } :=
  ⟨rfl,
   (saturation_no_acros_case.2.1 zeroRecipe { zeroRecipe with Color := 3 } "+3" rfl).1,
   (saturation_no_acros_case.2.1 zeroRecipe { zeroRecipe with Color := 3 } "+3" rfl).2⟩

/-- Claim C10, confirmed: whenever the goexif view of the photograph
leaves the Fujifilm Clarity tag or GrainEffectSize tag unloaded -
in particular whenever the Make tag is present with a value other
than "FUJIFILM" - recipe extraction returns an error, even when the
primary exiftool phase succeeded; the `Except.error` result carries
no recipe, so no partially filled record escapes. -/
theorem exifPhase_missing_tags_error :
    (∀ (fields : List (String × TagValue)) (x : ExifData),
      (∀ ct gt, fujiParse x = .ok (ct, gt) → ct = none ∨ gt = none) →
      ∃ e, GetRecipeFromFile fields x = .error e)
    ∧ (∀ (fields : List (String × TagValue)) (x : ExifData) (s : String),
      x.hasMakerNote = true → x.makeVal = some (some s) → s ≠ "FUJIFILM" →
      ∃ e, GetRecipeFromFile fields x = .error e) := by
  constructor
  · intro fields x h
    rw [GetRecipeFromFile]
    cases hr : runFields fields with
    | error e => exact ⟨e, rfl⟩
    | ok r =>
      simp only [hr]
      unfold exifPhase
      cases hp : fujiParse x with
      | error e =>
        simp only [hp]
        exact ⟨e, rfl⟩
      | ok p =>
        obtain ⟨ct, gt⟩ := p
        simp only [hp]
        rcases h ct gt hp with hc | hc
        · subst hc
          exact ⟨.tagAbsent clarityTagId, rfl⟩
        · subst hc
          cases ct with
          | none => exact ⟨.tagAbsent clarityTagId, rfl⟩
          | some cv => exact ⟨.tagAbsent grainTagId, rfl⟩
  · intro fields x s hmk hmv hneq
    rw [GetRecipeFromFile]
    cases hr : runFields fields with
    | error e => exact ⟨e, rfl⟩
    | ok r =>
      simp only [hr]
      have hp : fujiParse x = .error .notFujifilm := by
        rw [fujiParse]
        simp [hmk, hmv, hneq]
      unfold exifPhase
      simp only [hp]
      exact ⟨.notFujifilm, rfl⟩

/-- Witness for C10: a photograph with no maker note, and a
photograph whose Make is "CANON", both make extraction fail. -/
theorem exifPhase_missing_tags_error_witness :
    (∀ ct gt, fujiParse ⟨false, none, none⟩ = .ok (ct, gt) → ct = none ∨ gt = none)
    ∧ (∃ e, GetRecipeFromFile [] ⟨false, none, none⟩ = .error e)
    ∧ ExifData.hasMakerNote ⟨true, some (some "CANON"), some []⟩ = true
    ∧ ExifData.makeVal ⟨true, some (some "CANON"), some []⟩ = some (some "CANON")
    ∧ "CANON" ≠ "FUJIFILM"
    ∧ (∃ e, GetRecipeFromFile [] ⟨true, some (some "CANON"), some []⟩ = .error e) := by
  have h1 : ∀ ct gt, fujiParse ⟨false, none, none⟩ = .ok (ct, gt) →
      ct = none ∨ gt = none := by
    intro ct gt h
    injection h with hp
    injection hp with h2 h3
    exact Or.inl h2.symm
  exact ⟨h1, exifPhase_missing_tags_error.1 [] _ h1, rfl, rfl, by decide,
    exifPhase_missing_tags_error.2 [] _ "CANON" rfl rfl (by decide)⟩
